import Mathlib

/-!
Verification of the repository-introspection engine of GitGui
(`src-tauri/src/git.rs`), shallowly embedded in Lean 4.

The Rust code is a thin layer over libgit2 (`git2` crate) and `std::fs`.
We model the filesystem as an inductive tree of nodes (regular files,
directories, symlinks, and nodes whose metadata or listing is unreadable)
and a repository as an explicit object store (commits with trees and
parents, local and remote branches, HEAD). Machine integers (`u64` sizes)
are `Nat` with explicit saturation at `2^64 - 1`; fallible operations
return `Except GitError`.
-/

namespace GitGui

/-- The largest value representable in a `u64`. -/
def U64MAX : Nat := 2 ^ 64 - 1

/-- Rust `u64::saturating_add`: addition clamped at `u64::MAX`. -/
def satAdd (a b : Nat) : Nat := min (a + b) U64MAX

mutual

/-- A filesystem node as observed by `dir_size`:
* `file size content` — a regular file (`symlink_metadata(..).is_file()`);
  `size` models `metadata.len()`, `content` models what
  `fs::read_to_string` would return;
* `symlink linkSize` — a symbolic link; `symlink_metadata` does not follow
  it, and for it both `is_file()` and `is_dir()` are `false`;
* `statError` — a path for which `fs::symlink_metadata` fails;
* `unreadableDir` — a directory whose metadata reads fine
  (`is_dir() = true`) but for which `fs::read_dir` fails;
* `dir entries` — a readable directory with its named children. -/
inductive FsNode : Type where
  | file (size : Nat) (content : String)
  | symlink (linkSize : Nat)
  | statError
  | unreadableDir
  | dir (entries : FsEntries)

/-- The listing of a readable directory: a finite sequence of
(name, child-node) entries, in the order `fs::read_dir` yields them. -/
inductive FsEntries : Type where
  | nil
  | cons (name : String) (child : FsNode) (rest : FsEntries)

end

mutual

/-- Rust `dir_size(path, skip_name)` from git.rs: recursively sums regular-file
sizes under `path` with `u64::saturating_add`; one direct child may be
skipped by name; a node that is not a readable directory contributes 0
(`fs::read_dir` failing returns the running total, i.e. 0). -/
def dir_size : FsNode → Option String → Nat
  | .dir es, skip => dirEntriesSize es skip 0
  | _, _ => 0

/-- The `for entry_result in entries` loop of `dir_size`, with the mutable
`total` as an accumulator. A `file` child adds its length; a `dir` child
adds the recursive `dir_size(child, None)`; an `unreadableDir` child is
`is_dir()` so the code recurses into it, and the recursion returns 0; a
`symlink` child is neither `is_file()` nor `is_dir()` and adds nothing; a
`statError` child hits the `Err(_) => continue` arm. -/
def dirEntriesSize : FsEntries → Option String → Nat → Nat
  | .nil, _, total => total
  | .cons name child rest, skip, total =>
    if skip = some name then dirEntriesSize rest skip total
    else
      match child with
      | .file sz _ => dirEntriesSize rest skip (satAdd total sz)
      | .dir es => dirEntriesSize rest skip (satAdd total (dirEntriesSize es none 0))
      | .unreadableDir => dirEntriesSize rest skip (satAdd total 0)
      | .symlink _ => dirEntriesSize rest skip total
      | .statError => dirEntriesSize rest skip total

end

mutual

/-- Written from claim C1's words: the sum of the byte sizes of all regular
files under the directory, except those under the direct child named
`skip`, where each symlink encountered contributes its own link size and
unreadable entries contribute zero. (For comparison with `dir_size`.) -/
def claimedSize : FsNode → Option String → Nat
  | .dir es, skip => claimedEntries es skip
  | _, _ => 0

/-- Entry-list sum for `claimedSize`. -/
def claimedEntries : FsEntries → Option String → Nat
  | .nil, _ => 0
  | .cons name child rest, skip =>
    (if skip = some name then 0
     else
       match child with
       | .file sz _ => sz
       | .dir es => claimedEntries es none
       | .symlink l => l
       | _ => 0) + claimedEntries rest skip

end

mutual

/-- The unclamped recursive sum that `dir_size` computes: regular files
count their byte size, the direct child named `skip` is excluded, and
symlinks and unreadable entries contribute zero. -/
def plainSize : FsNode → Option String → Nat
  | .dir es, skip => plainEntries es skip
  | _, _ => 0

/-- Entry-list sum for `plainSize`. -/
def plainEntries : FsEntries → Option String → Nat
  | .nil, _ => 0
  | .cons name child rest, skip =>
    (if skip = some name then 0
     else
       match child with
       | .file sz _ => sz
       | .dir es => plainEntries es none
       | _ => 0) + plainEntries rest skip

end

theorem satAdd_le (a b : Nat) : satAdd a b ≤ U64MAX := by
  simp [satAdd]

theorem min_add_min (a b m : Nat) : min (min a m + b) m = min (a + b) m := by
  rcases Nat.le_total a m with h | h
  · rw [Nat.min_eq_left h]
  · rw [Nat.min_eq_right h]
    have : m ≤ a + b := le_trans h (Nat.le_add_right a b)
    rw [Nat.min_eq_right (by omega), Nat.min_eq_right this]

mutual

/-- Rust `dir_size` equals the clamp of the unclamped sum at `u64::MAX`. -/
theorem dir_size_eq_min_plainSize (n : FsNode) (skip : Option String) :
    dir_size n skip = min (plainSize n skip) U64MAX := by
  cases n with
  | dir es => simpa [dir_size, plainSize] using dirEntriesSize_eq es skip 0 (by simp)
  | file sz c => simp [dir_size, plainSize]
  | symlink l => simp [dir_size, plainSize]
  | statError => simp [dir_size, plainSize]
  | unreadableDir => simp [dir_size, plainSize]

/-- Accumulator form: the loop computes the clamped total. -/
theorem dirEntriesSize_eq (es : FsEntries) (skip : Option String) (total : Nat)
    (h : total ≤ U64MAX) :
    dirEntriesSize es skip total = min (total + plainEntries es skip) U64MAX := by
  cases es with
  | nil => simp [dirEntriesSize, plainEntries, Nat.min_eq_left h]
  | cons name child rest =>
    by_cases hskip : skip = some name
    · cases child <;>
        simp only [dirEntriesSize, plainEntries, if_pos hskip] <;>
        rw [dirEntriesSize_eq rest skip total h] <;>
        omega
    · cases child with
      | file sz c =>
        simp only [dirEntriesSize, plainEntries, if_neg hskip]
        rw [dirEntriesSize_eq rest skip _ (satAdd_le _ _)]
        simp only [satAdd]
        omega
      | dir es' =>
        simp only [dirEntriesSize, plainEntries, if_neg hskip]
        rw [dirEntriesSize_eq rest skip _ (satAdd_le _ _),
          dirEntriesSize_eq es' none 0 (by simp)]
        simp only [satAdd, Nat.zero_add]
        omega
      | symlink l =>
        simp only [dirEntriesSize, plainEntries, if_neg hskip]
        rw [dirEntriesSize_eq rest skip total h]
        omega
      | statError =>
        simp only [dirEntriesSize, plainEntries, if_neg hskip]
        rw [dirEntriesSize_eq rest skip total h]
        omega
      | unreadableDir =>
        simp only [dirEntriesSize, plainEntries, if_neg hskip]
        rw [dirEntriesSize_eq rest skip _ (satAdd_le _ _)]
        simp only [satAdd, Nat.add_zero]
        omega

end

theorem dir_size_le (n : FsNode) (skip : Option String) : dir_size n skip ≤ U64MAX := by
  rw [dir_size_eq_min_plainSize]
  simp

/-! ## Repository info aggregation (`get_repo_info`, `detect_lfs_enabled`) -/

/-- Look up a direct child of a directory listing by exact name. -/
def lookupEntry : FsEntries → String → Option FsNode
  | .nil, _ => none
  | .cons name child rest, target =>
    if name = target then some child else lookupEntry rest target

/-- Rust `path.join(name)` followed by use of the resulting path: the named child
of a directory node, or a node on which every metadata operation fails
when the child (or the parent directory) is absent. -/
def childNode (n : FsNode) (name : String) : FsNode :=
  match n with
  | .dir es => (lookupEntry es name).getD .statError
  | _ => .statError

/-- Rust `fs::read_to_string`: the content of a regular file, `none` on failure. -/
def readToString (n : FsNode) : Option String :=
  match n with
  | .file _ content => some content
  | _ => none

/-- Does the pattern occur at the very start of the haystack? -/
def subAt : List Char → List Char → Bool
  | _, [] => true
  | [], _ :: _ => false
  | a :: hay, b :: pat => a = b && subAt hay pat

/-- Does the pattern occur anywhere in the haystack? -/
def hasSub : List Char → List Char → Bool
  | [], pat => pat.isEmpty
  | a :: hay, pat => subAt (a :: hay) pat || hasSub hay pat

/-- Rust `content.contains(pat)`: substring containment on the char sequence. -/
def strContains (s pat : String) : Bool := hasSub s.data pat.data

/-- Rust `contains_lfs_filter` from git.rs: read the file at the node and test for
the literal marker `"filter=lfs"`; any read failure counts as `false`. -/
def contains_lfs_filter (n : FsNode) : Bool :=
  match readToString n with
  | some content => strContains content "filter=lfs"
  | none => false

/-- The repository as `get_repo_info` observes it on disk. `gitDir` is the
metadata directory node, `workdir` the working-tree root (`none` for a bare
repository, mirroring `repo.workdir()`). The two config Booleans model
whether `repo.config()` succeeds with `filter.lfs.clean` resp.
`filter.lfs.smudge` set (a failed config read makes both `false`). -/
structure RepoFs where
  isBare : Bool
  gitDir : FsNode
  workdir : Option FsNode
  configLfsClean : Bool
  configLfsSmudge : Bool

/-- Rust `detect_lfs_enabled` from git.rs: config filter keys, then the working
tree's `.gitattributes`, then the metadata directory's `info/attributes`. -/
def detect_lfs_enabled (r : RepoFs) (worktree : FsNode) : Bool :=
  (r.configLfsClean || r.configLfsSmudge)
    || contains_lfs_filter (childNode worktree ".gitattributes")
    || contains_lfs_filter (childNode (childNode r.gitDir "info") "attributes")

/-- The size/flag fields of `GitRepoInfo` (the three echoed path strings of
the Rust struct carry no computation and are omitted). -/
structure GitRepoInfo where
  isBare : Bool
  totalSizeBytes : Nat
  worktreeSizeBytes : Nat
  gitMetadataSizeBytes : Nat
  gitObjectsSizeBytes : Nat
  gitPackfilesSizeBytes : Nat
  gitRefsSizeBytes : Nat
  lfsEnabled : Bool
  lfsObjectsSizeBytes : Nat
deriving DecidableEq

/-- Rust `get_repo_info` from git.rs (on an already-discovered repository). -/
def get_repo_info (r : RepoFs) : GitRepoInfo :=
  let worktreePath := r.workdir.getD r.gitDir
  let worktreeSizeBytes := if r.isBare then 0 else dir_size worktreePath (some ".git")
  let gitMetadataSizeBytes := dir_size r.gitDir none
  { isBare := r.isBare
    totalSizeBytes := satAdd worktreeSizeBytes gitMetadataSizeBytes
    worktreeSizeBytes := worktreeSizeBytes
    gitMetadataSizeBytes := gitMetadataSizeBytes
    gitObjectsSizeBytes := dir_size (childNode r.gitDir "objects") none
    gitPackfilesSizeBytes := dir_size (childNode (childNode r.gitDir "objects") "pack") none
    gitRefsSizeBytes := dir_size (childNode r.gitDir "refs") none
    lfsEnabled := detect_lfs_enabled r worktreePath
    lfsObjectsSizeBytes := dir_size (childNode (childNode r.gitDir "lfs") "objects") none }

/-! ## The git object store model

`git2` / libgit2 is external to the repository; we model the slice of it the
code uses: an object store mapping ids to commits (each with a flat tree of
blob paths and contents, a parent list, and author metadata), local and
remote branch references, and HEAD. -/

/-- A hex object id, kept as its string form. -/
abbrev Oid := String

/-- A commit object: its tree (flat association list from full path to blob
content — git trees have unique entry names), parent ids in recorded order,
and the author fields `get_commits` reads. -/
structure GCommit where
  tree : List (String × String)
  parents : List Oid
  author : String
  time : Int
  message : String
deriving DecidableEq

/-- A local branch reference `refs/heads/<name>`. `target` is
`reference.target()`: `none` when the reference is symbolic rather than
direct. -/
structure LocalBranch where
  name : String
  target : Option Oid
deriving DecidableEq

/-- A remote-tracking branch reference `refs/remotes/<name>`. -/
structure RemoteBranch where
  name : String
deriving DecidableEq

/-- HEAD: either detached at an object id, or a symbolic reference to a
local branch name (`refs/heads/<name>`; the name may not exist — an unborn
branch). -/
inductive HeadRef : Type where
  | detached (oid : Oid)
  | symbolic (name : String)
deriving DecidableEq

/-- The opened repository state. `worktree` is the checked-out file content,
mutated by `checkout_tree`. -/
structure GRepo where
  commits : List (Oid × GCommit)
  localBranches : List LocalBranch
  remoteBranches : List RemoteBranch
  head : HeadRef
  worktree : List (String × String)
deriving DecidableEq

/-- Rust `repo.find_commit(oid)` as a lookup in the object store. -/
def findCommit (r : GRepo) (oid : Oid) : Option GCommit :=
  (r.commits.find? (fun e => e.1 = oid)).map (·.2)

/-- Rust `repo.find_branch(name, BranchType::Local)`. -/
def findLocalBranch (r : GRepo) (name : String) : Option LocalBranch :=
  r.localBranches.find? (fun b => b.name = name)

/-- Rust `git2::Oid::from_str`: a 40-character hex string parses to an id. -/
def parseOid (s : String) : Option Oid :=
  if s.length = 40 ∧ s.data.all (fun c => c.isDigit || ('a' ≤ c && c ≤ 'f') || ('A' ≤ c && c ≤ 'F'))
  then some s else none

/-- Rust `tree.get_path` + blob read: the content stored at a path of a tree. -/
def treeGet (t : List (String × String)) (p : String) : Option String :=
  (t.find? (fun e => e.1 = p)).map (·.2)

/-- Rust `read_file_from_tree` from git.rs: `tree.get_path` failure gives `none`
(which the callers turn into an empty string); otherwise the blob content
(read with lossy UTF-8 decoding, which the model keeps abstract). -/
def read_file_from_tree (tree : List (String × String)) (filePath : String) : Option String :=
  treeGet tree filePath

/-- The change kinds of `git2::Delta` that the code matches on. With the
default diff options used here there is no rename/copy detection and the
model tracks no file modes, so tree-to-tree diffs only produce the first
three kinds. -/
inductive DeltaKind : Type where
  | added
  | deleted
  | modified
  | renamed
  | copied
  | typechange
  | otherKind
deriving DecidableEq

/-- One delta of a tree-to-tree diff. libgit2 populates the path of both
sides for added and deleted entries, so both paths are always present. -/
structure DiffDelta where
  kind : DeltaKind
  oldPath : String
  newPath : String
deriving DecidableEq

/-- Rust `repo.diff_tree_to_tree(old, Some(new), opts)`: a `none` old tree is the
empty tree; with a pathspec the diff is restricted to entries whose path
matches it (modelled as exact path equality). One delta per path present in
exactly one side or changed between the sides. -/
def diffTreeToTree (old : Option (List (String × String)))
    (new : List (String × String)) (pathspec : Option String) : List DiffDelta :=
  let oldT := old.getD []
  let keys := ((oldT.map Prod.fst) ++ (new.map Prod.fst)).dedup
  let keys := match pathspec with
    | some p => keys.filter (fun q => q = p)
    | none => keys
  keys.filterMap (fun p =>
    match treeGet oldT p, treeGet new p with
    | none, some _ => some ⟨.added, p, p⟩
    | some _, none => some ⟨.deleted, p, p⟩
    | some a, some b => if a = b then none else some ⟨.modified, p, p⟩
    | none, none => none)

/-- The status-string mapping of `get_commit_changes`. -/
def deltaStatusName : DeltaKind → String
  | .added => "added"
  | .deleted => "deleted"
  | .modified => "modified"
  | .renamed => "renamed"
  | .copied => "copied"
  | .typechange => "typechange"
  | .otherKind => "unknown"

/-- The error taxonomy the operations surface. -/
inductive GitError : Type where
  | notFound
  | malformed
  | unresolvable
deriving DecidableEq

/-! ## Branch listing (`get_branches`) -/

/-- One row of the branch listing. -/
structure GitBranch where
  name : String
  isCurrent : Bool
  isRemote : Bool
deriving DecidableEq

/-- Rust `branch.is_head()` (libgit2 `git_branch_is_head`): HEAD is a symbolic
reference to exactly this local branch's refname. HEAD's symbolic target is
a `refs/heads/<name>` reference, which never coincides with a
`refs/remotes/..` refname, so a remote-tracking branch is never head. -/
def localBranchIsHead (h : HeadRef) (branchName : String) : Bool :=
  match h with
  | .symbolic n => n = branchName
  | .detached _ => false

/-- Rust `get_branches` from git.rs: all local branches (flagged current when
HEAD references them), followed by all remote-tracking branches. -/
def get_branches (repoOpt : Option GRepo) : Except GitError (List GitBranch) :=
  match repoOpt with
  | none => .error .notFound
  | some r =>
    .ok ((r.localBranches.map fun b =>
            { name := b.name, isCurrent := localBranchIsHead r.head b.name, isRemote := false })
      ++ (r.remoteBranches.map fun b =>
            { name := b.name, isCurrent := false, isRemote := true }))

/-! ## Commit walk (`get_commits`) -/

/-- One row of the commit listing. `date` is the decimal rendering of the
author timestamp, `message` is trimmed. -/
structure GitCommit where
  hash : String
  author : String
  date : String
  message : String
  parents : List String
deriving DecidableEq

/-- Build one `GitCommit` row from a stored commit, as the loop body of
`get_commits` does. -/
def mkGitCommit (oid : Oid) (c : GCommit) : GitCommit :=
  { hash := oid
    author := c.author
    date := toString c.time
    message := c.message.trim
    parents := c.parents }

/-- Bounded ancestry test: is `t` reachable from `s` along parent edges in
at most `fuel` steps? A missing commit object ends the search branch. -/
def reachableFuel : Nat → GRepo → Oid → Oid → Bool
  | 0, _, s, t => s = t
  | fuel + 1, r, s, t =>
    s = t ||
      match findCommit r s with
      | some c => c.parents.any (fun p => reachableFuel fuel r p t)
      | none => false

/-- Rust `repo.revwalk()` pushed at `start`: the stored ids reachable from
`start` (each once, in store enumeration order; a shortest parent chain
visits at most `commits.length` distinct ids, so that fuel suffices). -/
def revwalk (r : GRepo) (start : Oid) : List Oid :=
  (r.commits.map Prod.fst).filter (fun o => reachableFuel r.commits.length r start o)

/-- Rust `repo.head()?.peel_to_commit()?`: resolve HEAD to a commit id. HEAD on
an unborn branch (a symbolic target with no branch) or a symbolic local
branch with no direct target does not resolve. -/
def resolveHead (r : GRepo) : Option Oid :=
  match r.head with
  | .detached oid => some oid
  | .symbolic name => (findLocalBranch r name).bind (·.target)

/-- The `for oid in revwalk` loop of `get_commits`: look each id up
(propagating a lookup failure), accumulate rows, and break once 50 rows
were pushed. -/
def collectCommits (r : GRepo) : List Oid → List GitCommit → Except GitError (List GitCommit)
  | [], acc => .ok acc.reverse
  | oid :: rest, acc =>
    match findCommit r oid with
    | none => .error .notFound
    | some c =>
      let acc' := mkGitCommit oid c :: acc
      if acc'.length ≥ 50 then .ok acc'.reverse else collectCommits r rest acc'

/-- Rust `get_commits` from git.rs. -/
def get_commits (repoOpt : Option GRepo) : Except GitError (List GitCommit) :=
  match repoOpt with
  | none => .error .notFound
  | some r =>
    match resolveHead r with
    | none => .error .unresolvable
    | some headOid =>
      match findCommit r headOid with
      | none => .error .notFound
      | some _ => collectCommits r (revwalk r headOid) []

/-! ## Working-tree status (`get_status`) -/

/-- The `git2::Status` flag bits the classification inspects. -/
structure StatusFlags where
  indexNew : Bool
  indexModified : Bool
  indexDeleted : Bool
  wtNew : Bool
  wtModified : Bool
  wtDeleted : Bool
deriving DecidableEq

/-- One entry of `repo.statuses(..)` with `StatusShow::Workdir`. `path` is
`entry.path()`, which is `none` for a non-UTF-8 path. -/
structure StatusEntry where
  path : Option String
  flags : StatusFlags
deriving DecidableEq

/-- One row of the status listing. -/
structure GitStatus where
  filePath : String
  status : String
deriving DecidableEq

/-- The `if/else if` classification chain of `get_status`. -/
def classifyStatus (s : StatusFlags) : String :=
  if s.indexNew || s.wtNew then "new"
  else if s.indexModified || s.wtModified then "modified"
  else if s.indexDeleted || s.wtDeleted then "deleted"
  else "unknown"

/-- Rust `get_status` from git.rs, over the entry list the store reports. -/
def get_status (entriesOpt : Option (List StatusEntry)) : Except GitError (List GitStatus) :=
  match entriesOpt with
  | none => .error .notFound
  | some entries =>
    .ok (entries.map fun e => { filePath := e.path.getD "", status := classifyStatus e.flags })

/-! ## Commit diffs (`get_commit_changes`, `get_commit_file_diff`) -/

/-- One row of the per-commit change listing. -/
structure GitCommitChange where
  path : String
  status : String
deriving DecidableEq

/-- Rust `get_commit_changes` from git.rs: diff the commit's first parent's tree
(or the empty tree for a root commit) against the commit's tree, with no
path filter; report each delta's status name and its new-side path (which
libgit2 also populates for deletions, falling back to the old-side path). -/
def get_commit_changes (repoOpt : Option GRepo) (commitHash : String) :
    Except GitError (List GitCommitChange) :=
  match repoOpt with
  | none => .error .notFound
  | some r =>
    match parseOid commitHash with
    | none => .error .malformed
    | some oid =>
      match findCommit r oid with
      | none => .error .notFound
      | some c =>
        match c.parents with
        | [] =>
          .ok ((diffTreeToTree none c.tree none).map fun d =>
            { path := d.newPath, status := deltaStatusName d.kind })
        | p :: _ =>
          match findCommit r p with
          | none => .error .notFound
          | some pc =>
            .ok ((diffTreeToTree (some pc.tree) c.tree none).map fun d =>
              { path := d.newPath, status := deltaStatusName d.kind })

/-- The before/after content pair of one path in one commit. -/
structure GitCommitFileDiff where
  original : String
  modified : String
deriving DecidableEq

/-- The tail of `get_commit_file_diff` after parent-tree resolution:
restrict the parent-vs-commit diff to the given path, take its first delta
(if any), resolve the old-side and new-side paths from it, and read each
side from its tree; a side whose path is absent (no delta, no parent, or
no tree entry) becomes `""`. -/
def fileDiffFromTrees (parentTree : Option (List (String × String)))
    (currentTree : List (String × String)) (filePath : String) : GitCommitFileDiff :=
  let deltas := diffTreeToTree parentTree currentTree (some filePath)
  let delta := deltas.head?
  let oldPath := delta.map DiffDelta.oldPath
  let newPath := delta.map DiffDelta.newPath
  { original :=
      match parentTree, oldPath with
      | some t, some p => (read_file_from_tree t p).getD ""
      | _, _ => ""
    modified :=
      match newPath with
      | some p => (read_file_from_tree currentTree p).getD ""
      | none => "" }

/-- Rust `get_commit_file_diff` from git.rs: resolve the commit and its first
parent's tree exactly as `get_commit_changes` does, then delegate to
`fileDiffFromTrees`. -/
def get_commit_file_diff (repoOpt : Option GRepo) (commitHash filePath : String) :
    Except GitError GitCommitFileDiff :=
  match repoOpt with
  | none => .error .notFound
  | some r =>
    match parseOid commitHash with
    | none => .error .malformed
    | some oid =>
      match findCommit r oid with
      | none => .error .notFound
      | some c =>
        match c.parents with
        | [] => .ok (fileDiffFromTrees none c.tree filePath)
        | p :: _ =>
          match findCommit r p with
          | none => .error .notFound
          | some pc => .ok (fileDiffFromTrees (some pc.tree) c.tree filePath)

/-! ## Checkout (`checkout_branch`) -/

/-- The outcome of `checkout_branch` on a repository state: success or
failure (each carrying the resulting on-disk state), or a Rust panic
(`unwrap` on `None`). -/
inductive CheckoutResult : Type where
  | ok (s : GRepo)
  | err (e : GitError) (s : GRepo)
  | panicked
deriving DecidableEq

/-- Rust `checkout_branch` from git.rs: look the local branch up (failure leaves
the repository untouched), `unwrap` its direct target (panicking on a
symbolic branch reference), find that commit, then `checkout_tree` the
commit's tree into the working tree and `set_head` to
`refs/heads/<branch_name>`. -/
def checkout_branch (st : GRepo) (branchName : String) : CheckoutResult :=
  match findLocalBranch st branchName with
  | none => .err .notFound st
  | some b =>
    match b.target with
    | none => .panicked
    | some target =>
      match findCommit st target with
      | none => .err .notFound st
      | some c =>
        .ok { st with worktree := c.tree, head := .symbolic branchName }

/-! ## Claim C1: `dir_size` and symlinks -/

/-- A directory holding a single symlink of link size 5. -/
def c1ExampleDir : FsNode := .dir (.cons "s" (.symlink 5) .nil)

/-- C1 counterexample: the claim says `dir_size` counts each symlink at its
own link size; on a directory whose only entry is a symlink of link size 5
the claimed value is 5 but `dir_size` returns 0 — `fs::symlink_metadata` of
a symlink is neither `is_file()` nor `is_dir()`, so the entry adds
nothing. -/
theorem c1_dir_size_symlink_counterexample :
    dir_size c1ExampleDir (some "x") ≠ claimedSize c1ExampleDir (some "x") := by
  decide

/-- C1 (amended): `dir_size(D, E)` returns the sum of the byte sizes of all
regular files under `D` except those under the direct child named `E`
(clamped at `u64::MAX` by the saturating adds), where symlinks are not
followed and contribute zero — not their link size — and unreadable
entries contribute zero. -/
theorem c1_dir_size_is_clamped_file_size_sum (n : FsNode) (skip : Option String) :
    dir_size n skip = min (plainSize n skip) U64MAX :=
  dir_size_eq_min_plainSize n skip

/-! ## Claim C5: status classification precedence -/

/-- C5: `get_status` classifies every reported entry by the precedence
new, then modified, then deleted, then unknown: an entry flagged new (in
index or working tree) is reported as `new` no matter which other flags
are set, and each entry resolves to the earliest matching category. -/
theorem c5_status_precedence (entries : List StatusEntry) (L : List GitStatus)
    (h : get_status (some entries) = .ok L) :
    L = entries.map (fun e => { filePath := e.path.getD "", status := classifyStatus e.flags })
    ∧ (∀ s : StatusFlags, (s.indexNew || s.wtNew) = true → classifyStatus s = "new")
    ∧ (∀ s : StatusFlags, (s.indexNew || s.wtNew) = false →
        (s.indexModified || s.wtModified) = true → classifyStatus s = "modified")
    ∧ (∀ s : StatusFlags, (s.indexNew || s.wtNew) = false →
        (s.indexModified || s.wtModified) = false →
        (s.indexDeleted || s.wtDeleted) = true → classifyStatus s = "deleted")
    ∧ (∀ s : StatusFlags, (s.indexNew || s.wtNew) = false →
        (s.indexModified || s.wtModified) = false →
        (s.indexDeleted || s.wtDeleted) = false → classifyStatus s = "unknown") := by
  refine ⟨?_, ?_, ?_, ?_, ?_⟩
  · simp only [get_status, Except.ok.injEq] at h
    exact h.symm
  · intro s hs; simp [classifyStatus, hs]
  · intro s hs hm; simp [classifyStatus, hs, hm]
  · intro s hs hm hd; simp [classifyStatus, hs, hm, hd]
  · intro s hs hm hd; simp [classifyStatus, hs, hm, hd]

/-- A status entry flagged both new (in the index) and modified (in the
working tree). -/
def c5Entry : StatusEntry :=
  { path := some "f",
    flags := { indexNew := true, indexModified := false, indexDeleted := false,
               wtNew := false, wtModified := true, wtDeleted := false } }

/-- C5 witness: on the concrete entry flagged both new and modified, the
classification is `new`. -/
theorem c5_status_precedence_witness : classifyStatus c5Entry.flags = "new" :=
  (c5_status_precedence [c5Entry]
      [{ filePath := "f", status := classifyStatus c5Entry.flags }] rfl).2.1
    c5Entry.flags rfl

/-! ## Claim C6: repository info on a bare repository -/

/-- C6: on a bare repository `get_repo_info` reports a worktree size of 0
and a total size equal to the metadata directory size (the saturating sum
of 0 and the metadata size). -/
theorem c6_repo_info_bare (r : RepoFs) (h : r.isBare = true) :
    (get_repo_info r).worktreeSizeBytes = 0
    ∧ (get_repo_info r).totalSizeBytes = (get_repo_info r).gitMetadataSizeBytes := by
  have hle := dir_size_le r.gitDir none
  constructor
  · simp [get_repo_info, h]
  · simp [get_repo_info, h, satAdd]
    omega

/-- A concrete bare repository with an empty metadata directory. -/
def c6BareRepo : RepoFs :=
  { isBare := true, gitDir := .dir .nil, workdir := none,
    configLfsClean := false, configLfsSmudge := false }

/-- C6 witness: the bare-repository fact at the concrete bare repository. -/
theorem c6_repo_info_bare_witness :
    (get_repo_info c6BareRepo).worktreeSizeBytes = 0
    ∧ (get_repo_info c6BareRepo).totalSizeBytes = (get_repo_info c6BareRepo).gitMetadataSizeBytes :=
  c6_repo_info_bare c6BareRepo rfl

/-! ## Claim C7: checkout of a missing branch -/

/-- C7: checking out a branch name that does not resolve to a local branch
fails with `NotFound` and leaves the repository state — HEAD and working
tree — unchanged: the failure happens before any mutation. -/
theorem c7_checkout_missing_branch (st : GRepo) (branchName : String)
    (h : findLocalBranch st branchName = none) :
    checkout_branch st branchName = .err .notFound st := by
  simp [checkout_branch, h]

/-- A repository with no branches at all. -/
def c7Repo : GRepo :=
  { commits := [], localBranches := [], remoteBranches := [],
    head := .detached "d", worktree := [] }

/-- C7 witness: checking out "main" in a branchless repository fails with
`NotFound` and returns the state unchanged. -/
theorem c7_checkout_missing_branch_witness :
    checkout_branch c7Repo "main" = .err .notFound c7Repo :=
  c7_checkout_missing_branch c7Repo "main" rfl

/-! ## Claim C9: checkout panics on a branch without a direct target -/

/-- A repository whose local branch `weird` is a symbolic reference: its
`target()` is `none`. -/
def c9Repo : GRepo :=
  { commits := [], localBranches := [{ name := "weird", target := none }],
    remoteBranches := [], head := .detached "d", worktree := [] }

/-- C9: there is a repository state in which the branch lookup succeeds but
`checkout_branch` panics (the `unwrap()` of a `None` target) instead of
returning a `Result`. -/
theorem c9_checkout_panics_on_symbolic_branch :
    ∃ (st : GRepo) (name : String),
      (findLocalBranch st name).isSome = true ∧ checkout_branch st name = .panicked := by
  refine ⟨c9Repo, "weird", ?_, ?_⟩ <;> rfl

/-! ## Claim C4: the commit walk is capped at 50 -/

theorem collectCommits_length_le (r : GRepo) :
    ∀ (oids : List Oid) (acc l : List GitCommit),
      acc.length < 50 → collectCommits r oids acc = .ok l → l.length ≤ 50 := by
  intro oids
  induction oids with
  | nil =>
    intro acc l hlt hok
    simp only [collectCommits, Except.ok.injEq] at hok
    subst hok
    simpa using Nat.le_of_lt hlt
  | cons oid rest ih =>
    intro acc l hlt hok
    simp only [collectCommits] at hok
    cases hfc : findCommit r oid with
    | none => rw [hfc] at hok; cases hok
    | some c =>
      rw [hfc] at hok
      simp only at hok
      by_cases hlen : (mkGitCommit oid c :: acc).length ≥ 50
      · rw [if_pos hlen] at hok
        cases hok
        simp only [List.length_reverse, List.length_cons]
        omega
      · rw [if_neg hlen] at hok
        refine ih _ l ?_ hok
        simp only [List.length_cons] at hlen ⊢
        omega

/-- C4: whenever `get_commits` succeeds, it returns at most 50 entries,
however large the ancestry reachable from HEAD is. -/
theorem c4_get_commits_at_most_50 (repoOpt : Option GRepo) (l : List GitCommit)
    (h : get_commits repoOpt = .ok l) : l.length ≤ 50 := by
  match repoOpt with
  | none => cases h
  | some r =>
    simp only [get_commits] at h
    split at h
    · cases h
    · split at h
      · cases h
      · exact collectCommits_length_le r (revwalk r _) [] l (by simp) h

/-- A repository with a single root commit, HEAD detached at it. -/
def c4Repo : GRepo :=
  { commits := [("h1", { tree := [], parents := [], author := "a", time := 0, message := "m" })],
    localBranches := [], remoteBranches := [], head := .detached "h1", worktree := [] }

/-- The row `get_commits` produces for the single commit of `c4Repo`. -/
def c4Row : GitCommit :=
  { hash := "h1", author := "a", date := toString (0 : Int),
    message := "m".trim, parents := [] }

/-- C4 witness: the bound applied to the concrete one-commit repository. -/
theorem c4_get_commits_at_most_50_witness : [c4Row].length ≤ 50 :=
  c4_get_commits_at_most_50 (some c4Repo) [c4Row] rfl

/-! ## Claim C8: current-branch flags in the branch listing -/

theorem countP_name_eq (n : String) (bs : List LocalBranch)
    (hnd : (bs.map LocalBranch.name).Nodup) :
    bs.countP (fun b => decide (n = b.name)) =
      if n ∈ bs.map LocalBranch.name then 1 else 0 := by
  induction bs with
  | nil => simp
  | cons b rest ih =>
    simp only [List.map_cons, List.nodup_cons] at hnd
    obtain ⟨hnotmem, hnd'⟩ := hnd
    rw [List.countP_cons]
    by_cases hn : n = b.name
    · have hzero : rest.countP (fun b2 => decide (n = b2.name)) = 0 := by
        rw [List.countP_eq_zero]
        intro b2 hb2
        simp only [decide_eq_true_eq]
        intro heq
        apply hnotmem
        rw [hn.symm.trans heq]
        exact List.mem_map_of_mem LocalBranch.name hb2
      simp [hzero, hn]
      intro a ha heq
      apply hnotmem
      rw [heq]
      exact List.mem_map_of_mem LocalBranch.name ha
    · have : n ∈ List.map LocalBranch.name (b :: rest) ↔ n ∈ List.map LocalBranch.name rest := by
        simp [hn]
      rw [ih hnd']
      simp [hn, this]

/-- C8: in the branch listing, every remote-tracking entry has
`isCurrent = false`, and (when local branch names are distinct, as refs
are) the number of entries flagged current is 1 exactly when HEAD is a
symbolic reference to an existing local branch, and 0 when HEAD is
detached or points at a branch that does not exist (unborn). -/
theorem c8_branch_current_flags (st : GRepo) (l : List GitBranch)
    (hnd : (st.localBranches.map LocalBranch.name).Nodup)
    (h : get_branches (some st) = .ok l) :
    (∀ b ∈ l, b.isRemote = true → b.isCurrent = false)
    ∧ l.countP (fun b => b.isCurrent) =
        (match st.head with
         | .symbolic n => if n ∈ st.localBranches.map LocalBranch.name then 1 else 0
         | .detached _ => 0) := by
  simp only [get_branches, Except.ok.injEq] at h
  subst h
  constructor
  · intro b hb hrem
    rcases List.mem_append.mp hb with hloc | hrm
    · obtain ⟨b0, _, rfl⟩ := List.mem_map.mp hloc
      cases hrem
    · obtain ⟨b0, _, rfl⟩ := List.mem_map.mp hrm
      rfl
  · rw [List.countP_append, List.countP_map, List.countP_map]
    have hremote : st.remoteBranches.countP
        ((fun b : GitBranch => b.isCurrent) ∘ fun b : RemoteBranch =>
          ({ name := b.name, isCurrent := false, isRemote := true } : GitBranch)) = 0 := by
      rw [List.countP_eq_zero]
      intro b _
      simp [Function.comp]
    rw [hremote, Nat.add_zero]
    cases hh : st.head with
    | detached oid =>
      rw [List.countP_eq_zero]
      intro b _
      simp [Function.comp, localBranchIsHead]
    | symbolic n =>
      have hcomp : ((fun b : GitBranch => b.isCurrent) ∘ fun b : LocalBranch =>
          ({ name := b.name, isCurrent := localBranchIsHead (HeadRef.symbolic n) b.name,
             isRemote := false } : GitBranch)) =
          (fun b : LocalBranch => decide (n = b.name)) := by
        funext b
        simp [Function.comp, localBranchIsHead]
      rw [hcomp, countP_name_eq n st.localBranches hnd]

/-- A repository with one local branch `main` (which HEAD references) and
one remote-tracking branch. -/
def c8Repo : GRepo :=
  { commits := [], localBranches := [{ name := "main", target := some "h1" }],
    remoteBranches := [{ name := "origin/main" }], head := .symbolic "main", worktree := [] }

/-- C8 witness: the concrete listing has exactly one entry flagged
current. -/
theorem c8_branch_current_flags_witness :
    ([({ name := "main", isCurrent := true, isRemote := false } : GitBranch),
      { name := "origin/main", isCurrent := false, isRemote := true }].countP
        (fun b => b.isCurrent)) = 1 :=
  (c8_branch_current_flags c8Repo
    [{ name := "main", isCurrent := true, isRemote := false },
     { name := "origin/main", isCurrent := false, isRemote := true }]
    (by decide) rfl).2

/-! ## Diff lemmas shared by C2, C3 and C10 -/

theorem treeGet_nil (p : String) : treeGet [] p = none := rfl

theorem treeGet_isSome_of_mem (t : List (String × String)) (p : String)
    (h : p ∈ t.map Prod.fst) : (treeGet t p).isSome := by
  induction t with
  | nil => simp at h
  | cons e rest ih =>
    by_cases he : e.1 = p
    · simp [treeGet, List.find?_cons, he]
    · simp only [List.map_cons, List.mem_cons] at h
      rcases h with h | h
      · exact absurd h.symm he
      · simpa [treeGet, List.find?_cons, he] using ih h

theorem listHeadMem {α : Type} {l : List α} {a : α} (h : l.head? = some a) : a ∈ l := by
  cases l with
  | nil => cases h
  | cons x xs =>
    simp only [List.head?_cons, Option.some.injEq] at h
    subst h
    exact List.mem_cons_self _ _

/-- Every delta of a pathspec-restricted diff carries the pathspec's path
on both sides. -/
theorem diff_pathspec_delta_paths (old : Option (List (String × String)))
    (new : List (String × String)) (fp : String) (d : DiffDelta)
    (hd : d ∈ diffTreeToTree old new (some fp)) :
    d.oldPath = fp ∧ d.newPath = fp := by
  simp only [diffTreeToTree, List.mem_filterMap] at hd
  obtain ⟨p, hpmem, hfp⟩ := hd
  have hpf : p = fp := by simpa using (List.mem_filter.mp hpmem).2
  subst hpf
  cases h1 : treeGet (old.getD []) p with
  | none =>
    cases h2 : treeGet new p with
    | none => rw [h1, h2] at hfp; cases hfp
    | some b =>
      rw [h1, h2] at hfp
      obtain rfl : (⟨DeltaKind.added, p, p⟩ : DiffDelta) = d := by simpa using hfp
      exact ⟨rfl, rfl⟩
  | some a =>
    cases h2 : treeGet new p with
    | none =>
      rw [h1, h2] at hfp
      obtain rfl : (⟨DeltaKind.deleted, p, p⟩ : DiffDelta) = d := by simpa using hfp
      exact ⟨rfl, rfl⟩
    | some b =>
      rw [h1, h2] at hfp
      have hfp2 : (if a = b then none else some (⟨DeltaKind.modified, p, p⟩ : DiffDelta))
          = some d := hfp
      by_cases hab : a = b
      · rw [if_pos hab] at hfp2; cases hfp2
      · rw [if_neg hab] at hfp2
        obtain rfl : (⟨DeltaKind.modified, p, p⟩ : DiffDelta) = d := by simpa using hfp2
        exact ⟨rfl, rfl⟩

theorem fileDiffFromTrees_no_parent_original (ct : List (String × String)) (fp : String) :
    (fileDiffFromTrees none ct fp).original = "" := by
  cases hd : (diffTreeToTree none ct (some fp)).head? <;> simp [fileDiffFromTrees, hd]

theorem fileDiffFromTrees_original_empty (pt ct : List (String × String)) (fp : String)
    (h : treeGet pt fp = none) :
    (fileDiffFromTrees (some pt) ct fp).original = "" := by
  cases hd : (diffTreeToTree (some pt) ct (some fp)).head? with
  | none => simp [fileDiffFromTrees, hd]
  | some d =>
    have hpaths := diff_pathspec_delta_paths (some pt) ct fp d (listHeadMem hd)
    simp [fileDiffFromTrees, hd, hpaths.1, read_file_from_tree, h]

theorem fileDiffFromTrees_modified_empty (pt : Option (List (String × String)))
    (ct : List (String × String)) (fp : String) (h : treeGet ct fp = none) :
    (fileDiffFromTrees pt ct fp).modified = "" := by
  cases hd : (diffTreeToTree pt ct (some fp)).head? with
  | none => simp [fileDiffFromTrees, hd]
  | some d =>
    have hpaths := diff_pathspec_delta_paths pt ct fp d (listHeadMem hd)
    simp [fileDiffFromTrees, hd, hpaths.2, read_file_from_tree, h]

/-! ## Claim C3: a root commit's changes are all `added` -/

/-- C3: on a commit with no parent, `get_commit_changes` reports every
tracked path of the commit's tree, each with status `"added"`. -/
theorem c3_root_commit_all_added (r : GRepo) (hash : String) (oid : Oid) (c : GCommit)
    (hp : parseOid hash = some oid) (hc : findCommit r oid = some c)
    (hroot : c.parents = []) :
    ∃ L, get_commit_changes (some r) hash = .ok L
      ∧ (∀ e ∈ L, e.status = "added")
      ∧ (∀ p ∈ c.tree.map Prod.fst,
          ({ path := p, status := "added" } : GitCommitChange) ∈ L) := by
  refine ⟨(diffTreeToTree none c.tree none).map
      (fun d => { path := d.newPath, status := deltaStatusName d.kind }), ?_, ?_, ?_⟩
  · simp [get_commit_changes, hp, hc, hroot]
  · intro e he
    obtain ⟨d, hd, rfl⟩ := List.mem_map.mp he
    simp only [diffTreeToTree, Option.getD_none, List.map_nil, List.nil_append,
      List.mem_filterMap] at hd
    obtain ⟨p, hpmem, hfp⟩ := hd
    rw [treeGet_nil] at hfp
    cases htc : treeGet c.tree p with
    | none => rw [htc] at hfp; cases hfp
    | some content =>
      rw [htc] at hfp
      obtain rfl : (⟨DeltaKind.added, p, p⟩ : DiffDelta) = d := by simpa using hfp
      rfl
  · intro p hp3
    apply List.mem_map.mpr
    refine ⟨⟨.added, p, p⟩, ?_, rfl⟩
    simp only [diffTreeToTree, Option.getD_none, List.map_nil, List.nil_append,
      List.mem_filterMap]
    refine ⟨p, List.mem_dedup.mpr hp3, ?_⟩
    rw [treeGet_nil]
    obtain ⟨content, hcon⟩ := Option.isSome_iff_exists.mp (treeGet_isSome_of_mem c.tree p hp3)
    rw [hcon]

/-- A 40-hex-character object id. -/
def c3Hash : String := "aaaaaaaaaaaaaaaaaaaaaaaaaaaaaaaaaaaaaaaa"

/-- A root commit tracking one file. -/
def c3Commit : GCommit :=
  { tree := [("a.txt", "hello")], parents := [], author := "a", time := 0, message := "" }

/-- A repository holding just the root commit. -/
def c3Repo : GRepo :=
  { commits := [(c3Hash, c3Commit)], localBranches := [], remoteBranches := [],
    head := .detached c3Hash, worktree := [] }

/-- C3 witness: in the concrete one-file root commit, the listing contains
the file with status `added`. -/
theorem c3_root_commit_all_added_witness :
    ({ path := "a.txt", status := "added" } : GitCommitChange) ∈
      [({ path := "a.txt", status := "added" } : GitCommitChange)] := by
  obtain ⟨L, hok, hall, hmem⟩ :=
    c3_root_commit_all_added c3Repo c3Hash c3Hash c3Commit (by decide) (by decide) rfl
  have hval : get_commit_changes (some c3Repo) c3Hash =
      .ok [{ path := "a.txt", status := "added" }] := rfl
  rw [hval] at hok
  have hLmem := hmem "a.txt" (by decide)
  rw [← Except.ok.inj hok] at hLmem
  exact hLmem

/-! ## Claim C2: file-diff errors versus legitimately absent sides -/

/-- C2: `get_commit_file_diff` propagates an error for a missing
repository, an unparsable hash, or an unresolvable commit (or first
parent), but a side of the diff that legitimately does not exist — the
commit has no parent, or the path is absent from that side's tree — is
returned as an empty string, not as an error. -/
theorem c2_file_diff_errors_vs_absent_sides (repoOpt : Option GRepo) (hash fp : String) :
    (repoOpt = none → get_commit_file_diff repoOpt hash fp = .error .notFound)
    ∧ (∀ r, repoOpt = some r → parseOid hash = none →
        get_commit_file_diff repoOpt hash fp = .error .malformed)
    ∧ (∀ r oid, repoOpt = some r → parseOid hash = some oid → findCommit r oid = none →
        get_commit_file_diff repoOpt hash fp = .error .notFound)
    ∧ (∀ r oid c, repoOpt = some r → parseOid hash = some oid → findCommit r oid = some c →
        (c.parents = [] →
          ∃ d, get_commit_file_diff repoOpt hash fp = .ok d ∧ d.original = "")
        ∧ (∀ p rest pc, c.parents = p :: rest → findCommit r p = some pc →
            (treeGet pc.tree fp = none →
              ∃ d, get_commit_file_diff repoOpt hash fp = .ok d ∧ d.original = "")
            ∧ (treeGet c.tree fp = none →
              ∃ d, get_commit_file_diff repoOpt hash fp = .ok d ∧ d.modified = ""))) := by
  refine ⟨?_, ?_, ?_, ?_⟩
  · rintro rfl; rfl
  · rintro r rfl hpo
    simp [get_commit_file_diff, hpo]
  · rintro r oid rfl hpo hfc
    simp [get_commit_file_diff, hpo, hfc]
  · rintro r oid c rfl hpo hfc
    constructor
    · intro hroot
      refine ⟨fileDiffFromTrees none c.tree fp, ?_,
        fileDiffFromTrees_no_parent_original c.tree fp⟩
      simp [get_commit_file_diff, hpo, hfc, hroot]
    · rintro p rest pc hpar hpc
      constructor
      · intro habs
        refine ⟨fileDiffFromTrees (some pc.tree) c.tree fp, ?_,
          fileDiffFromTrees_original_empty pc.tree c.tree fp habs⟩
        simp [get_commit_file_diff, hpo, hfc, hpar, hpc]
      · intro habs
        refine ⟨fileDiffFromTrees (some pc.tree) c.tree fp, ?_,
          fileDiffFromTrees_modified_empty (some pc.tree) c.tree fp habs⟩
        simp [get_commit_file_diff, hpo, hfc, hpar, hpc]

/-- Root-commit object id of the two-commit example repository. -/
def c2Hash1 : String := "aaaaaaaaaaaaaaaaaaaaaaaaaaaaaaaaaaaaaaaa"

/-- Second-commit object id of the two-commit example repository. -/
def c2Hash2 : String := "bbbbbbbbbbbbbbbbbbbbbbbbbbbbbbbbbbbbbbbb"

/-- The root commit: tracks `a.txt` only. -/
def c2Commit1 : GCommit :=
  { tree := [("a.txt", "A")], parents := [], author := "a", time := 0, message := "" }

/-- The second commit: keeps `a.txt` unchanged and adds `b.txt`. -/
def c2Commit2 : GCommit :=
  { tree := [("a.txt", "A"), ("b.txt", "B")], parents := [c2Hash1],
    author := "a", time := 1, message := "" }

/-- The two-commit example repository. -/
def c2Repo : GRepo :=
  { commits := [(c2Hash1, c2Commit1), (c2Hash2, c2Commit2)],
    localBranches := [], remoteBranches := [], head := .detached c2Hash2, worktree := [] }

/-- C2 witness: for the commit that adds `b.txt`, the absent old side comes
back as the empty string, not as an error. -/
theorem c2_file_diff_errors_vs_absent_sides_witness :
    (get_commit_file_diff (some c2Repo) c2Hash2 "b.txt").map GitCommitFileDiff.original
      = .ok "" := by
  obtain ⟨d, hok, horig⟩ :=
    (((c2_file_diff_errors_vs_absent_sides (some c2Repo) c2Hash2 "b.txt").2.2.2 c2Repo c2Hash2
        c2Commit2 rfl (by decide) (by decide)).2 c2Hash1 [] c2Commit1 (by decide)
      (by decide)).1 (by decide)
  rw [hok]
  simp [Except.map, horig]

/-! ## Claim C10: a path untouched by the commit diffs to two empty sides -/

/-- C10: when the given path has identical content in the commit's tree and
in its first parent's tree, the pathspec-restricted diff has no delta, so
`get_commit_file_diff` returns the empty string on both sides rather than
the path's actual content. -/
theorem c10_unchanged_path_reads_empty (r : GRepo) (hash fp : String) (oid : Oid)
    (c : GCommit) (p : Oid) (rest : List Oid) (pc : GCommit) (s : String)
    (hpo : parseOid hash = some oid) (hfc : findCommit r oid = some c)
    (hpar : c.parents = p :: rest) (hpc : findCommit r p = some pc)
    (hold : treeGet pc.tree fp = some s) (hnew : treeGet c.tree fp = some s) :
    get_commit_file_diff (some r) hash fp = .ok { original := "", modified := "" } := by
  have hdiff : diffTreeToTree (some pc.tree) c.tree (some fp) = [] := by
    simp only [diffTreeToTree]
    rw [List.filterMap_eq_nil_iff]
    intro q hq
    have hq2 : q = fp := by simpa using (List.mem_filter.mp hq).2
    subst hq2
    simp only [Option.getD_some]
    rw [hold, hnew]
    simp
  have hfinal : fileDiffFromTrees (some pc.tree) c.tree fp = { original := "", modified := "" } := by
    simp [fileDiffFromTrees, hdiff]
  simp [get_commit_file_diff, hpo, hfc, hpar, hpc, hfinal]

/-- C10 witness: `a.txt` is untouched by the second commit of the
two-commit repository, and its file diff is a pair of empty strings. -/
theorem c10_unchanged_path_reads_empty_witness :
    get_commit_file_diff (some c2Repo) c2Hash2 "a.txt" =
      .ok { original := "", modified := "" } :=
  c10_unchanged_path_reads_empty c2Repo c2Hash2 "a.txt" c2Hash2 c2Commit2 c2Hash1 [] c2Commit1
    "A" (by decide) (by decide) (by decide) (by decide) (by decide) (by decide)

end GitGui
